import Mathlib

/-!
Shallow embedding of `splunk/resource_splunk_saved_searches.go` (terraform-provider-splunk).

Pure helpers (`normalizeActionsString`, `suppressDefault`, `calculateWebhookPriority`,
`getCalculatedPriority`) are translated directly.  The stateful CRUD functions are
modelled by the sequence of remote calls they issue and by explicit status/envelope
inputs standing for the decoded HTTP response.  Go library primitives used by the
source (`strings.TrimSpace`, `strings.Split`, `strings.Join`, `sort.Strings`,
`strings.Contains`, `strconv.ParseBool`, the fixed regexp `(.*)`, and the
terraform SDK's `GetOk`) are embedded with their documented semantics.
-/

/-- Go `unicode.IsSpace`: the Unicode White_Space code points. -/
def goIsSpace (c : Char) : Bool :=
  c.toNat = 0x09 || c.toNat = 0x0A || c.toNat = 0x0B || c.toNat = 0x0C ||
  c.toNat = 0x0D || c.toNat = 0x20 || c.toNat = 0x85 || c.toNat = 0xA0 ||
  c.toNat = 0x1680 || (0x2000 ≤ c.toNat && c.toNat ≤ 0x200A) ||
  c.toNat = 0x2028 || c.toNat = 0x2029 || c.toNat = 0x202F ||
  c.toNat = 0x205F || c.toNat = 0x3000

/-- Go `strings.TrimSpace` on a rune list: drop White_Space runes from both ends. -/
def trimSpace (cs : List Char) : List Char :=
  ((cs.dropWhile goIsSpace).reverse.dropWhile goIsSpace).reverse

/-- Go `strings.Split (s, ",")`: the substrings between commas, in order.
`Split` always returns one more piece than there are separators. -/
def splitOnComma : List Char → List (List Char)
  | [] => [[]]
  | c :: rest =>
    let ts := splitOnComma rest
    if c = ',' then [] :: ts else (c :: ts.headI) :: ts.tail

/-- Go `strings.Join (ts, ",")`. -/
def joinComma : List (List Char) → List Char
  | [] => []
  | [t] => t
  | t :: ts => t ++ ',' :: joinComma ts

/-- Go `sort.Strings`: sorts ascending in byte order, which on valid UTF-8 strings
is code-point lexicographic order; since equal elements are identical strings the
sorted permutation is unique, so any sorting algorithm computes the same list. -/
def sortStrings (ts : List (List Char)) : List (List Char) :=
  List.insertionSort (· ≤ ·) ts

/-- The comma-split, whitespace-trimmed, nonempty tokens of an actions string
(`actionList` / `cleanActions` in `normalizeActionsString`, lines 30-41). -/
def cleanActionList (s : String) : List (List Char) :=
  ((splitOnComma s.toList).map trimSpace).filter (fun t => !t.isEmpty)

/-- `normalizeActionsString` (lines 24-45): split on commas, trim each element,
drop empties, sort, rejoin with commas; the empty string maps to itself. -/
def normalizeActionsString (actions : String) : String :=
  if actions = "" then ""
  else String.mk (joinComma (sortStrings (cleanActionList actions)))

/-- `suppressActionsDiff` (lines 47-49), with the unused key and resource-data
arguments dropped: two action strings are equivalent iff they normalize equally. -/
def suppressActionsDiff (old new : String) : Bool :=
  normalizeActionsString old == normalizeActionsString new

/-- `suppressDefault` (lines 18-22), with the unused key and resource-data
arguments dropped: the diff is suppressed iff the remote value is the sentinel
and the desired value is empty. -/
def suppressDefault (defaultValue old new : String) : Bool :=
  old == defaultValue && new == ""

/-- `calculateWebhookPriority` (lines 53-83): the severity × precision table;
every combination outside the table falls through to the default 1. -/
def calculateWebhookPriority (severity precision : String) : Int :=
  if severity = "Critical" then
    if precision = "High" then 4
    else if precision = "Medium" then 3
    else if precision = "Low" then 2
    else 1
  else if severity = "High" then
    if precision = "High" ∨ precision = "Medium" then 3
    else if precision = "Low" then 2
    else 1
  else if severity = "Medium" then
    if precision = "High" ∨ precision = "Medium" then 2
    else if precision = "Low" then 1
    else 1
  else if severity = "Low" then 1
  else 1

/-- The slice of the terraform resource data that `getCalculatedPriority` reads:
the raw `action_webhook_param_priority` value (`none` when the field is absent
from config and state, so that `Get` would return the zero value 0), and the
`severity` and `precision` strings. -/
structure PriorityResourceData where
  action_webhook_param_priority : Option Int
  severity : String
  precision : String
deriving DecidableEq

/-- Terraform SDK `ResourceData.GetOk` on an int field: the value (zero default
when absent) and the `ok` flag, which is documented to be false whenever the
stored value equals the type's zero value — an explicit 0 is indistinguishable
from an unset field. -/
def getOkInt : Option Int → Int × Bool
  | none => (0, false)
  | some p => (p, decide (p ≠ 0))

/-- `getCalculatedPriority` (lines 85-102): the `GetOk` override check, then the
severity/precision derivation when both are nonempty, else the default 1. -/
def getCalculatedPriority (d : PriorityResourceData) : Int :=
  let pr := getOkInt d.action_webhook_param_priority
  if pr.2 then pr.1
  else if d.severity ≠ "" ∧ d.precision ≠ "" then
    calculateWebhookPriority d.severity d.precision
  else 1

/-- `models.ACLObject`, restricted to the fields the saved-searches code reads. -/
structure ACLObject where
  owner : String
  app : String
  sharing : String
deriving DecidableEq

/-- One remote call issued through the provider client, with the scope arguments
in the order the Go client methods take them. -/
inductive ApiCall where
  | createSavedSearches (name owner app : String)
  | updateAcl (owner app name : String) (acl : ACLObject)
  | updateSavedSearches (name owner app : String)
deriving DecidableEq

/-- `getResourceDataSearchACL` (lines 1804-1815): the requested ACL block when
one was supplied (`GetOk` on the `acl` list is true iff the block is present),
else a zero `ACLObject` with the pseudo-defaults owner `nobody`, app `search`. -/
def getResourceDataSearchACL (acl : Option ACLObject) : ACLObject :=
  match acl with
  | some a => a
  | none => { owner := "nobody", app := "search", sharing := "" }

/-- The remote calls `savedSearchesCreate` (lines 1109-1127) issues, in order:
the entity create under the resolved scope, then — only when an ACL block was
supplied — one `UpdateAcl` with the requested scope.  The trailing
`savedSearchesRead` is not part of this trace. -/
def savedSearchesCreateCalls (name : String) (acl : Option ACLObject) : List ApiCall :=
  let aclObject := getResourceDataSearchACL acl
  ApiCall.createSavedSearches name aclObject.owner aclObject.app ::
    (match acl with
     | some _ => [ApiCall.updateAcl aclObject.owner aclObject.app name aclObject]
     | none => [])

/-- The remote calls `savedSearchesUpdate` (lines 1587-1612) issues, in order:
the content update and then the permission update, both under the effective
owner (`nobody` unless the requested sharing is `user`).  The trailing
`savedSearchesRead` is not part of this trace. -/
def savedSearchesUpdateCalls (id : String) (aclObject : ACLObject) : List ApiCall :=
  let owner := if aclObject.sharing ≠ "user" then "nobody" else aclObject.owner
  [ApiCall.updateSavedSearches id owner aclObject.app,
   ApiCall.updateAcl owner aclObject.app id aclObject]

deriving instance DecidableEq for Except

/-- A value in the persisted raw state, tagged with its represented type. -/
inductive GoValue where
  | str (s : String)
  | boolean (b : Bool)
  | int (n : Int)
deriving DecidableEq

/-- A Go runtime panic, as an explicit outcome of the embedded functions. -/
inductive GoPanic where
  | typeAssertionFailed
deriving DecidableEq

/-- Go `strconv.ParseBool`: `some` on the accepted literals, `none` (with the
zero value false as the returned bool) on everything else, including `auto`. -/
def strconvParseBool (s : String) : Option Bool :=
  if s = "1" ∨ s = "t" ∨ s = "T" ∨ s = "TRUE" ∨ s = "true" ∨ s = "True" then some true
  else if s = "0" ∨ s = "f" ∨ s = "F" ∨ s = "FALSE" ∨ s = "false" ∨ s = "False" then some false
  else none

/-- Go map assignment `m[k] = v` on an association-list model of the raw state. -/
def mapSet (m : List (String × GoValue)) (k : String) (v : GoValue) :
    List (String × GoValue) :=
  match m with
  | [] => [(k, v)]
  | (k', v') :: rest => if k' = k then (k, v) :: rest else (k', v') :: mapSet rest k v

/-- `resourceAlertTrackStateUpgradeV0` (lines 1104-1107): asserts the stored
`alert_track` value to a string (a runtime panic when it is absent or not a
string), parses it with `strconv.ParseBool` *discarding the error* (so any
unparseable string, such as `auto`, silently becomes false), stores the result
back, and always returns a nil error. -/
def resourceAlertTrackStateUpgradeV0 (rawState : List (String × GoValue)) :
    Except GoPanic (List (String × GoValue)) :=
  match rawState.lookup "alert_track" with
  | some (GoValue.str s) =>
      Except.ok (mapSet rawState "alert_track"
        (GoValue.boolean ((strconvParseBool s).getD false)))
  | _ => Except.error GoPanic.typeAssertionFailed

/-- Go `strings.Contains`: substring (contiguous infix) occurrence. -/
def goStringsContains (s substr : String) : Bool :=
  decide (substr.toList <:+: s.toList)

/-- The webhook-related slice of the payload `getSavedSearchesConfig`
(lines 1697-1719) builds. -/
structure WebhookConfigBits where
  actions : String
  actionWebhook : Bool
  actionWebhookParamPriority : Int
deriving DecidableEq

/-- The slice of the resource data feeding the webhook payload fields. -/
structure WebhookResourceData where
  actions : String
  action_webhook_param_priority : Option Int
  severity : String
  precision : String
deriving DecidableEq

/-- The webhook fields of `getSavedSearchesConfig` (lines 1697, 1712-1715):
`Actions` is the normalized actions string, `ActionWebhook` is
`strings.Contains(normalizeActionsString(actions), "webhook")`, and
`ActionWebhookParamPriority` is `getCalculatedPriority`. -/
def getSavedSearchesConfigWebhookBits (d : WebhookResourceData) : WebhookConfigBits :=
  { actions := normalizeActionsString d.actions,
    actionWebhook := goStringsContains (normalizeActionsString d.actions) "webhook",
    actionWebhookParamPriority :=
      getCalculatedPriority
        { action_webhook_param_priority := d.action_webhook_param_priority,
          severity := d.severity, precision := d.precision } }

/-- A decoded `entry[]` record: the name and an opaque stand-in for the rest. -/
structure SavedSearchesEntry where
  name : String
  content : String
deriving DecidableEq

/-- A failure outcome of the embedded lookup/delete code: a Go error carrying a
message, or the index-out-of-range panic from `Messages[0]` on an empty slice. -/
inductive GoFailure where
  | remoteErr (msg : String)
  | indexOutOfRange
deriving DecidableEq

/-- The Go lookup key `regexp.MustCompile` of the pattern dot-star in one capture
group, applied as `FindStringSubmatch(s)[1]`: the greedy leftmost match of the
fixed pattern captures the longest newline-free run from position 0, i.e. the
first line of `s` (dot does not match a newline in Go regexps). -/
def findStringSubmatchGroup1 (s : String) : String :=
  String.mk (s.toList.takeWhile (fun c => c ≠ '\n'))

/-- `getSavedSearchesConfigByName` (lines 1783-1802), with the decoded response
made explicit: on status 200/201 the first entry whose first line of `name`
equals the requested name (nil when none matches, with a nil error); on any
other status the error text is `Messages[0].Text` of the decoded envelope — an
index-out-of-range panic when the decoded message list is empty. -/
def getSavedSearchesConfigByName (name : String) (statusCode : Nat)
    (entries : List SavedSearchesEntry) (messages : List String) :
    Except GoFailure (Option SavedSearchesEntry) :=
  if statusCode = 200 ∨ statusCode = 201 then
    Except.ok (entries.find? (fun e => name == findStringSubmatchGroup1 e.name))
  else
    match messages with
    | [] => Except.error GoFailure.indexOutOfRange
    | t :: _ => Except.error (GoFailure.remoteErr t)

/-- The lookup step of `savedSearchesRead` (lines 1141-1148): a nil entry from
`getSavedSearchesConfigByName` becomes the not-found error. -/
def savedSearchesReadLookup (name : String) (statusCode : Nat)
    (entries : List SavedSearchesEntry) (messages : List String) :
    Except GoFailure SavedSearchesEntry :=
  match getSavedSearchesConfigByName name statusCode entries messages with
  | Except.error e => Except.error e
  | Except.ok none => Except.error (GoFailure.remoteErr ("Unable to find resource: " ++ name))
  | Except.ok (some e) => Except.ok e

/-- `savedSearchesDelete` (lines 1614-1633), with the response made explicit:
nil error on status 200/201 regardless of the body; otherwise the error text is
`Messages[0].Text` of the decoded envelope — an index-out-of-range panic when
the decoded message list is empty. -/
def savedSearchesDelete (statusCode : Nat) (messages : List String) :
    Except GoFailure Unit :=
  if statusCode = 200 ∨ statusCode = 201 then Except.ok ()
  else
    match messages with
    | [] => Except.error GoFailure.indexOutOfRange
    | t :: _ => Except.error (GoFailure.remoteErr t)

/-- The Jira fields of a decoded `entry.content` block that `savedSearchesRead`
reconciles (lines 1348-1371). -/
structure JiraContentFields where
  account : String
  jiraProject : String
  issueType : String
  summary : String
  priority : String
  description : String
  customfields : String
deriving DecidableEq

/-- The summary sentinel guarding the Jira summary write (line 1357). -/
def jiraSummaryDefault : String := "Splunk Alert: $name$"

/-- The description sentinel guarding the Jira description write (line 1365). -/
def jiraDescriptionDefault : String := "The alert condition for '$name$' was triggered."

/-- The `d.Set` writes `savedSearchesRead` performs for the Jira block
(lines 1348-1371), in order: the summary and description fields are written only
when the observed value differs from their sentinel; all the other fields are
written unconditionally. -/
def savedSearchesReadJiraWrites (c : JiraContentFields) : List (String × String) :=
  [("action_jira_service_desk_param_account", c.account),
   ("action_jira_service_desk_param_jira_project", c.jiraProject),
   ("action_jira_service_desk_param_jira_issue_type", c.issueType)] ++
  (if c.summary ≠ jiraSummaryDefault then
    [("action_jira_service_desk_param_jira_summary", c.summary)] else []) ++
  [("action_jira_service_desk_param_jira_priority", c.priority)] ++
  (if c.description ≠ jiraDescriptionDefault then
    [("action_jira_service_desk_param_jira_description", c.description)] else []) ++
  [("action_jira_service_desk_param_jira_customfields", c.customfields)]

/-- C1: the claim as stated is false on the code: with an explicit zero override
(`action_webhook_param_priority = some 0`) and inputs Critical/High,
`getCalculatedPriority` returns the derived value 4, not the override 0, because
the terraform SDK's `GetOk` reports an int field holding its zero value as unset. -/
theorem effectivePriority_explicit_zero_cex :
    getCalculatedPriority ⟨some 0, "Critical", "High"⟩ = 4 ∧
    getCalculatedPriority ⟨some 0, "Critical", "High"⟩ ≠ 0 := by decide

/-- C1 (amended): `getCalculatedPriority` returns the explicit
`action_webhook_param_priority` override whenever it is present *and non-zero*;
when the override is absent — or explicitly zero, which `GetOk` cannot
distinguish from absent — it falls back to `calculateWebhookPriority (severity,
precision)` when both are nonempty and to 1 otherwise; the derivation table is
the severity × precision table of the spec. -/
theorem effectivePriority_override_semantics (d : PriorityResourceData) :
    (∀ p : Int, d.action_webhook_param_priority = some p → p ≠ 0 →
      getCalculatedPriority d = p) ∧
    (d.action_webhook_param_priority = none ∨ d.action_webhook_param_priority = some 0 →
      getCalculatedPriority d =
        if d.severity ≠ "" ∧ d.precision ≠ "" then
          calculateWebhookPriority d.severity d.precision
        else 1) ∧
    (calculateWebhookPriority "Critical" "High" = 4 ∧
     calculateWebhookPriority "Critical" "Medium" = 3 ∧
     calculateWebhookPriority "Critical" "Low" = 2 ∧
     calculateWebhookPriority "High" "High" = 3 ∧
     calculateWebhookPriority "High" "Medium" = 3 ∧
     calculateWebhookPriority "High" "Low" = 2 ∧
     calculateWebhookPriority "Medium" "High" = 2 ∧
     calculateWebhookPriority "Medium" "Medium" = 2 ∧
     calculateWebhookPriority "Medium" "Low" = 1) ∧
    (∀ prec, calculateWebhookPriority "Low" prec = 1) := by
  refine ⟨?_, ?_, by decide, fun prec => rfl⟩
  · intro p hp hne
    simp [getCalculatedPriority, getOkInt, hp, hne]
  · rintro (h | h) <;> simp [getCalculatedPriority, getOkInt, h]

/-- C1 (amended), witnessed: a non-zero override of 7 is returned verbatim, and
an explicit zero override on Medium/Low falls back to the derived value 1. -/
theorem effectivePriority_override_semantics_witness :
    getCalculatedPriority ⟨some 7, "Critical", "Low"⟩ = 7 ∧
    getCalculatedPriority ⟨some 0, "Medium", "Low"⟩ = 1 := by
  constructor
  · exact (effectivePriority_override_semantics ⟨some 7, "Critical", "Low"⟩).1 7 rfl (by decide)
  · exact ((effectivePriority_override_semantics ⟨some 0, "Medium", "Low"⟩).2.1
      (Or.inr rfl)).trans (by decide)

/-- C2: Create issues the entity create under the resolved creation scope
(owner `nobody`, app `search` when no ACL block was supplied, the requested
scope otherwise), and issues exactly one following permission update — with the
same requested scope — iff an ACL block was supplied. -/
theorem create_calls_acl_conditional (name : String) (a : ACLObject) :
    savedSearchesCreateCalls name none =
      [ApiCall.createSavedSearches name "nobody" "search"] ∧
    savedSearchesCreateCalls name (some a) =
      [ApiCall.createSavedSearches name a.owner a.app,
       ApiCall.updateAcl a.owner a.app name a] := by
  constructor <;> rfl

/-- C3: Update computes the effective owner (`nobody` unless the requested
sharing is `user`, the requested owner otherwise) and issues the content update
followed by the permission update, both under that effective owner. -/
theorem update_calls_effective_owner (id : String) (acl : ACLObject) :
    (acl.sharing ≠ "user" → savedSearchesUpdateCalls id acl =
      [ApiCall.updateSavedSearches id "nobody" acl.app,
       ApiCall.updateAcl "nobody" acl.app id acl]) ∧
    (acl.sharing = "user" → savedSearchesUpdateCalls id acl =
      [ApiCall.updateSavedSearches id acl.owner acl.app,
       ApiCall.updateAcl acl.owner acl.app id acl]) := by
  constructor <;> intro h <;> simp [savedSearchesUpdateCalls, h]

/-- C3, witnessed: a `global`-sharing request with owner `carol` issues both
calls under `nobody`, and a `user`-sharing request keeps owner `alice`. -/
theorem update_calls_effective_owner_witness :
    savedSearchesUpdateCalls "x" ⟨"carol", "myapp", "global"⟩ =
      [ApiCall.updateSavedSearches "x" "nobody" "myapp",
       ApiCall.updateAcl "nobody" "myapp" "x" ⟨"carol", "myapp", "global"⟩] ∧
    savedSearchesUpdateCalls "x" ⟨"alice", "myapp", "user"⟩ =
      [ApiCall.updateSavedSearches "x" "alice" "myapp",
       ApiCall.updateAcl "alice" "myapp" "x" ⟨"alice", "myapp", "user"⟩] := by
  constructor
  · exact (update_calls_effective_owner "x" ⟨"carol", "myapp", "global"⟩).1 (by decide)
  · exact (update_calls_effective_owner "x" ⟨"alice", "myapp", "user"⟩).2 rfl

/-- C5: the claim as stated is false on the code: migrating a state whose
`alert_track` is the string `auto` — which `strconv.ParseBool` rejects — does
not fail with a migration error; the parse error is discarded and the field
silently becomes `false`. -/
theorem alert_track_upgrade_auto_cex :
    resourceAlertTrackStateUpgradeV0 [("alert_track", GoValue.str "auto")] =
      Except.ok [("alert_track", GoValue.boolean false)] := by decide

/-- C5 (amended): the 0→1 upgrade parses a stored string via
`strconv.ParseBool` with the error discarded — accepted literals become their
boolean, any other string (such as `auto`) becomes `false` — and always returns
without error; an absent or non-string `alert_track` causes a runtime type
assertion panic, not a returned migration error. -/
theorem alert_track_upgrade_semantics (rawState : List (String × GoValue)) :
    (∀ s, rawState.lookup "alert_track" = some (GoValue.str s) →
      resourceAlertTrackStateUpgradeV0 rawState =
        Except.ok (mapSet rawState "alert_track"
          (GoValue.boolean ((strconvParseBool s).getD false)))) ∧
    ((∀ s, rawState.lookup "alert_track" ≠ some (GoValue.str s)) →
      resourceAlertTrackStateUpgradeV0 rawState = Except.error GoPanic.typeAssertionFailed) ∧
    (strconvParseBool "true" = some true ∧ strconvParseBool "false" = some false ∧
      strconvParseBool "auto" = none) := by
  refine ⟨?_, ?_, by decide⟩
  · intro s h
    simp [resourceAlertTrackStateUpgradeV0, h]
  · intro h
    rcases hl : rawState.lookup "alert_track" with _ | v
    · simp [resourceAlertTrackStateUpgradeV0, hl]
    · cases v with
      | str s => exact absurd hl (h s)
      | boolean b => simp [resourceAlertTrackStateUpgradeV0, hl]
      | int n => simp [resourceAlertTrackStateUpgradeV0, hl]

/-- C5 (amended), witnessed: `"true"` migrates to `true` without error, and a
state holding a non-string `alert_track` panics on the type assertion. -/
theorem alert_track_upgrade_semantics_witness :
    resourceAlertTrackStateUpgradeV0 [("alert_track", GoValue.str "true")] =
      Except.ok [("alert_track", GoValue.boolean true)] ∧
    resourceAlertTrackStateUpgradeV0 [("alert_track", GoValue.int 3)] =
      Except.error GoPanic.typeAssertionFailed := by
  constructor
  · exact ((alert_track_upgrade_semantics [("alert_track", GoValue.str "true")]).1
      "true" (by decide)).trans (by decide)
  · refine (alert_track_upgrade_semantics [("alert_track", GoValue.int 3)]).2.1 ?_
    intro s h
    simp [List.lookup] at h

/-- C9: Delete returns no error exactly on status 200 or 201 regardless of the
body, and on any other status surfaces an error whose message is the first
entry of the decoded envelope's messages when that list is nonempty. -/
theorem delete_status_semantics (statusCode : Nat) (messages : List String) :
    (statusCode = 200 ∨ statusCode = 201 →
      savedSearchesDelete statusCode messages = Except.ok ()) ∧
    (savedSearchesDelete statusCode messages = Except.ok () →
      statusCode = 200 ∨ statusCode = 201) ∧
    (¬(statusCode = 200 ∨ statusCode = 201) → ∀ t rest, messages = t :: rest →
      savedSearchesDelete statusCode messages = Except.error (GoFailure.remoteErr t)) := by
  by_cases h : statusCode = 200 ∨ statusCode = 201
  · refine ⟨fun _ => ?_, fun _ => h, fun hn => absurd h hn⟩
    simp [savedSearchesDelete, h]
  · refine ⟨fun hy => absurd hy h, ?_, ?_⟩
    · intro hok
      cases messages <;> simp [savedSearchesDelete, h] at hok
    · intro _ t rest hm
      subst hm
      simp [savedSearchesDelete, h]

/-- C9, witnessed: status 404 with one message `no such entity` surfaces that
text, and status 200 returns no error with an arbitrary junk body. -/
theorem delete_status_semantics_witness :
    savedSearchesDelete 404 ["no such entity"] =
      Except.error (GoFailure.remoteErr "no such entity") ∧
    savedSearchesDelete 200 ["junk"] = Except.ok () := by
  constructor
  · exact (delete_status_semantics 404 ["no such entity"]).2.2 (by decide)
      "no such entity" [] rfl
  · exact (delete_status_semantics 200 ["junk"]).1 (Or.inl rfl)

/-- C10: on any non-success status with an empty decoded messages list (empty,
undecodable, or message-free body), both Delete and the Read lookup hit the
unguarded `Messages[0]` index: the embedded functions return the
index-out-of-range panic outcome instead of a structured error. -/
theorem empty_envelope_index_panic (statusCode : Nat)
    (h : ¬(statusCode = 200 ∨ statusCode = 201)) :
    savedSearchesDelete statusCode [] = Except.error GoFailure.indexOutOfRange ∧
    ∀ name entries, getSavedSearchesConfigByName name statusCode entries [] =
      Except.error GoFailure.indexOutOfRange := by
  constructor
  · simp [savedSearchesDelete, h]
  · intro name entries
    simp [getSavedSearchesConfigByName, h]

/-- C10, witnessed at status 404 with an empty envelope. -/
theorem empty_envelope_index_panic_witness :
    savedSearchesDelete 404 [] = Except.error GoFailure.indexOutOfRange ∧
    getSavedSearchesConfigByName "n" 404 [] [] =
      Except.error GoFailure.indexOutOfRange := by
  exact ⟨(empty_envelope_index_panic 404 (by decide)).1,
    (empty_envelope_index_panic 404 (by decide)).2 "n" []⟩

/-! Helper lemmas about `trimSpace`, `splitOnComma`, `joinComma`, `sortStrings`. -/

theorem dropWhile_head_not {α : Type} {p : α → Bool} :
    ∀ {l : List α} {c : α} {cs : List α}, l.dropWhile p = c :: cs → p c = false := by
  intro l
  induction l with
  | nil => intro c cs h; cases h
  | cons a l ih =>
    intro c cs h
    by_cases hpa : p a = true
    · rw [List.dropWhile_cons, if_pos hpa] at h
      exact ih h
    · rw [List.dropWhile_cons, if_neg hpa] at h
      cases h
      exact Bool.not_eq_true _ ▸ Bool.of_not_eq_true hpa

theorem dropWhile_idem {α : Type} {p : α → Bool} (l : List α) :
    (l.dropWhile p).dropWhile p = l.dropWhile p := by
  cases hl : l.dropWhile p with
  | nil => rfl
  | cons c cs => rw [List.dropWhile_cons, if_neg (by simp [dropWhile_head_not hl])]

theorem dropWhile_append_last {α : Type} {p : α → Bool} {c : α} (hc : p c = false) :
    ∀ xs : List α, (xs ++ [c]).dropWhile p = xs.dropWhile p ++ [c] := by
  intro xs
  induction xs with
  | nil => simp [List.dropWhile_cons, hc]
  | cons x xs ih =>
    by_cases hx : p x = true
    · simp only [List.cons_append, List.dropWhile_cons, if_pos hx, ih]
    · simp only [List.cons_append, List.dropWhile_cons, if_neg hx]

theorem trimSpace_idem (l : List Char) : trimSpace (trimSpace l) = trimSpace l := by
  unfold trimSpace
  cases ht : l.dropWhile goIsSpace with
  | nil => rfl
  | cons c cs =>
    have hc : goIsSpace c = false := dropWhile_head_not ht
    rw [List.reverse_cons, dropWhile_append_last hc, List.reverse_append]
    simp only [List.reverse_cons, List.reverse_nil, List.nil_append, List.singleton_append,
      List.dropWhile_cons, hc]
    rw [if_neg (by simp), List.reverse_cons, List.reverse_reverse,
      dropWhile_append_last hc, dropWhile_idem, List.reverse_append]
    simp

theorem trimSpace_sublist (l : List Char) : (trimSpace l).Sublist l := by
  unfold trimSpace
  have h1 : ((l.dropWhile goIsSpace).reverse.dropWhile goIsSpace).Sublist
      (l.dropWhile goIsSpace).reverse := List.dropWhile_sublist _
  have h2 := h1.reverse
  rw [List.reverse_reverse] at h2
  exact h2.trans (List.dropWhile_sublist _)

theorem splitOnComma_cons (c : Char) (rest : List Char) :
    splitOnComma (c :: rest) =
      if c = ',' then [] :: splitOnComma rest
      else (c :: (splitOnComma rest).headI) :: (splitOnComma rest).tail := rfl

theorem splitOnComma_ne_nil (cs : List Char) : splitOnComma cs ≠ [] := by
  cases cs with
  | nil => simp [splitOnComma]
  | cons c rest =>
    unfold splitOnComma
    by_cases hc : c = ',' <;> simp [hc]

theorem headI_cons_tail {α : Type} [Inhabited α] {l : List α} (h : l ≠ []) :
    l.headI :: l.tail = l := by
  cases l with
  | nil => exact absurd rfl h
  | cons a l => rfl

theorem headI_mem_of_ne_nil {α : Type} [Inhabited α] {l : List α} (h : l ≠ []) :
    l.headI ∈ l := by
  cases l with
  | nil => exact absurd rfl h
  | cons a l => exact List.mem_cons_self a l

theorem mem_splitOnComma_no_comma :
    ∀ {cs : List Char} {t : List Char}, t ∈ splitOnComma cs → ',' ∉ t := by
  intro cs
  induction cs with
  | nil =>
    intro t ht
    simp [splitOnComma] at ht
    simp [ht]
  | cons c rest ih =>
    intro t ht
    unfold splitOnComma at ht
    by_cases hc : c = ','
    · rw [if_pos hc] at ht
      rcases List.mem_cons.mp ht with h | h
      · simp [h]
      · exact ih h
    · rw [if_neg hc] at ht
      rcases List.mem_cons.mp ht with h | h
      · subst h
        intro hmem
        rcases List.mem_cons.mp hmem with h | h
        · exact hc h.symm
        · exact ih (headI_mem_of_ne_nil (splitOnComma_ne_nil rest)) h
      · exact ih ((List.tail_sublist _).subset h)

theorem splitOnComma_append {t : List Char} (cs : List Char) (h : ',' ∉ t) :
    splitOnComma (t ++ cs) =
      (t ++ (splitOnComma cs).headI) :: (splitOnComma cs).tail := by
  induction t with
  | nil => simp [headI_cons_tail (splitOnComma_ne_nil cs)]
  | cons c t' ih =>
    have hc : ¬c = ',' := fun hcc => h (hcc ▸ List.mem_cons_self c t')
    have ih' := ih (fun hm => h (List.mem_cons_of_mem c hm))
    rw [List.cons_append, splitOnComma_cons, if_neg hc, ih']
    simp

theorem splitOnComma_joinComma :
    ∀ {ts : List (List Char)}, ts ≠ [] → (∀ t ∈ ts, ',' ∉ t) →
      splitOnComma (joinComma ts) = ts := by
  intro ts
  induction ts with
  | nil => intro h; exact absurd rfl h
  | cons u us ih =>
    intro _ hnc
    cases us with
    | nil =>
      show splitOnComma (joinComma [u]) = [u]
      have : joinComma [u] = u ++ [] := by simp [joinComma]
      rw [this, splitOnComma_append [] (hnc u (List.mem_cons_self u []))]
      simp [splitOnComma]
    | cons v vs =>
      show splitOnComma (u ++ ',' :: joinComma (v :: vs)) = u :: v :: vs
      rw [splitOnComma_append (',' :: joinComma (v :: vs))
        (hnc u (List.mem_cons_self u _))]
      have hsplit : splitOnComma (',' :: joinComma (v :: vs)) =
          [] :: splitOnComma (joinComma (v :: vs)) := by
        rw [splitOnComma_cons, if_pos rfl]
      rw [hsplit, ih (by simp) (fun t htm => hnc t (List.mem_cons_of_mem u htm))]
      simp

theorem joinComma_ne_nil {u : List Char} (us : List (List Char)) (hu : u ≠ []) :
    joinComma (u :: us) ≠ [] := by
  cases us with
  | nil => exact hu
  | cons v vs =>
    show u ++ ',' :: joinComma (v :: vs) ≠ []
    simp

theorem mem_infix_joinComma {t : List Char} :
    ∀ {ts : List (List Char)}, t ∈ ts → t <:+: joinComma ts := by
  intro ts
  induction ts with
  | nil => intro h; cases h
  | cons u us ih =>
    intro ht
    rcases List.mem_cons.mp ht with h | h
    · subst h
      cases us with
      | nil => exact List.infix_refl t
      | cons v vs =>
        show t <:+: t ++ ',' :: joinComma (v :: vs)
        exact (List.prefix_append t _).isInfix
    · cases us with
      | nil => cases h
      | cons v vs =>
        show t <:+: u ++ ',' :: joinComma (v :: vs)
        refine (ih h).trans ?_
        rw [List.append_cons]
        exact (List.suffix_append (u ++ [',']) _).isInfix

theorem sortStrings_sorted (ts : List (List Char)) :
    List.Sorted (· ≤ ·) (sortStrings ts) :=
  List.sorted_insertionSort _ ts

theorem sortStrings_perm (ts : List (List Char)) : (sortStrings ts).Perm ts :=
  List.perm_insertionSort _ ts

theorem sortStrings_of_sorted {ts : List (List Char)}
    (h : List.Sorted (· ≤ ·) ts) : sortStrings ts = ts :=
  h.insertionSort_eq

theorem mem_cleanActionList_ne_nil {x : String} {t : List Char}
    (h : t ∈ cleanActionList x) : t ≠ [] := by
  have := List.of_mem_filter h
  simpa using this

theorem mem_cleanActionList_no_comma {x : String} {t : List Char}
    (h : t ∈ cleanActionList x) : ',' ∉ t := by
  have hmem : t ∈ (splitOnComma x.toList).map trimSpace := List.mem_of_mem_filter h
  rcases List.mem_map.mp hmem with ⟨u, hu, hut⟩
  intro hct
  exact mem_splitOnComma_no_comma hu ((trimSpace_sublist u).subset (hut ▸ hct))

theorem mem_cleanActionList_trimmed {x : String} {t : List Char}
    (h : t ∈ cleanActionList x) : trimSpace t = t := by
  have hmem : t ∈ (splitOnComma x.toList).map trimSpace := List.mem_of_mem_filter h
  rcases List.mem_map.mp hmem with ⟨u, _, hut⟩
  rw [← hut, trimSpace_idem]

/-- `normalizeActionsString` on every input is the sorted, comma-joined clean
token list — the empty-string guard agrees with the pipeline on `""`. -/
theorem normalizeActionsString_eq (x : String) :
    normalizeActionsString x = String.mk (joinComma (sortStrings (cleanActionList x))) := by
  by_cases hx : x = ""
  · subst hx; rfl
  · simp [normalizeActionsString, hx]

theorem cleanActionList_mk_joinComma {S : List (List Char)}
    (hnil : ∀ t ∈ S, t ≠ []) (hcomma : ∀ t ∈ S, ',' ∉ t)
    (htrim : ∀ t ∈ S, trimSpace t = t) (hS : S ≠ []) :
    cleanActionList (String.mk (joinComma S)) = S := by
  unfold cleanActionList
  have htl : (String.mk (joinComma S)).toList = joinComma S := rfl
  rw [htl, splitOnComma_joinComma hS hcomma]
  rw [List.map_congr_left htrim]
  rw [show List.map (fun a => a) S = S from List.map_id S]
  rw [List.filter_eq_self.mpr]
  intro t ht
  simpa using hnil t ht

/-- C7: `normalizeActionsString` splits on commas, trims each element, discards
empties, sorts ascending and rejoins (the characterization equation); empty and
all-blank inputs yield `""`; it is idempotent; inputs with permuted clean token
lists normalize equally; and `suppressActionsDiff` compares exactly the
normalized forms.  (Purity and totality hold by construction: it is a Lean
function.) -/
theorem normalizeActionsString_spec :
    (normalizeActionsString "" = "") ∧
    (∀ x, normalizeActionsString x =
      String.mk (joinComma (sortStrings (cleanActionList x)))) ∧
    (∀ x, List.Sorted (· ≤ ·) (sortStrings (cleanActionList x))) ∧
    (∀ x, (∀ t ∈ splitOnComma x.toList, trimSpace t = []) →
      normalizeActionsString x = "") ∧
    (∀ x, normalizeActionsString (normalizeActionsString x) = normalizeActionsString x) ∧
    (∀ a b, (cleanActionList a).Perm (cleanActionList b) →
      normalizeActionsString a = normalizeActionsString b) ∧
    (∀ a b, suppressActionsDiff a b = true ↔
      normalizeActionsString a = normalizeActionsString b) := by
  have hchar := normalizeActionsString_eq
  refine ⟨rfl, hchar, fun x => sortStrings_sorted _, ?_, ?_, ?_, ?_⟩
  · intro x hall
    have hclean : cleanActionList x = [] := by
      unfold cleanActionList
      rw [List.filter_eq_nil_iff]
      intro t ht
      rcases List.mem_map.mp ht with ⟨u, hu, hut⟩
      simp [← hut, hall u hu]
    rw [hchar x, hclean]
    rfl
  · intro x
    cases hS : sortStrings (cleanActionList x) with
    | nil =>
      rw [hchar x, hS]
      rfl
    | cons u us =>
      have hmemS : ∀ t ∈ sortStrings (cleanActionList x), t ∈ cleanActionList x :=
        fun t ht => ((sortStrings_perm (cleanActionList x)).mem_iff).mp ht
      have hnil : ∀ t ∈ u :: us, t ≠ [] :=
        fun t ht => mem_cleanActionList_ne_nil (hmemS t (hS ▸ ht))
      have hcomma : ∀ t ∈ u :: us, ',' ∉ t :=
        fun t ht => mem_cleanActionList_no_comma (hmemS t (hS ▸ ht))
      have htrim : ∀ t ∈ u :: us, trimSpace t = t :=
        fun t ht => mem_cleanActionList_trimmed (hmemS t (hS ▸ ht))
      have hjne : joinComma (u :: us) ≠ [] :=
        joinComma_ne_nil us (hnil u (List.mem_cons_self u us))
      rw [hchar x, hS, hchar (String.mk (joinComma (u :: us)))]
      rw [cleanActionList_mk_joinComma hnil hcomma htrim (by simp)]
      rw [sortStrings_of_sorted (hS ▸ sortStrings_sorted (cleanActionList x))]
  · intro a b hperm
    rw [hchar a, hchar b]
    have : sortStrings (cleanActionList a) = sortStrings (cleanActionList b) :=
      List.eq_of_perm_of_sorted
        (((sortStrings_perm _).trans hperm).trans (sortStrings_perm _).symm)
        (sortStrings_sorted _) (sortStrings_sorted _)
    rw [this]
  · intro a b
    exact beq_iff_eq

/-- C7, witnessed: an all-blank input normalizes to `""` (via the all-empty
clause), and two reorderings with different whitespace normalize equally (via
the permutation clause). -/
theorem normalizeActionsString_spec_witness :
    normalizeActionsString " , ," = "" ∧
    normalizeActionsString "b, a" = normalizeActionsString " a ,b" := by
  obtain ⟨-, -, -, h4, -, h6, -⟩ := normalizeActionsString_spec
  exact ⟨h4 " , ," (by decide), h6 "b, a" " a ,b" (by decide)⟩

theorem findStringSubmatchGroup1_of_no_newline {s : String} (h : '\n' ∉ s.toList) :
    findStringSubmatchGroup1 s = s := by
  unfold findStringSubmatchGroup1
  rw [List.takeWhile_eq_self_iff.mpr (fun c hc => by
    simp only [decide_eq_true_iff]
    exact fun hcn => h (hcn ▸ hc))]
  rfl

theorem find_eq_exact {name : String} :
    ∀ {entries : List SavedSearchesEntry},
      (∀ e ∈ entries, '\n' ∉ e.name.toList) →
      entries.find? (fun e => name == findStringSubmatchGroup1 e.name) =
        entries.find? (fun e => e.name == name) := by
  intro entries
  induction entries with
  | nil => intro _; rfl
  | cons e es ih =>
    intro h
    have hne : findStringSubmatchGroup1 e.name = e.name :=
      findStringSubmatchGroup1_of_no_newline (h e (List.mem_cons_self e es))
    have hpred : (name == findStringSubmatchGroup1 e.name) = (e.name == name) := by
      rw [hne]
      by_cases hx : name = e.name
      · subst hx; simp
      · simp [hx, Ne.symm hx]
    rw [List.find?_cons, List.find?_cons, hpred]
    cases hb : (e.name == name) with
    | true => rfl
    | false => exact ih (fun e' he' => h e' (List.mem_cons_of_mem e he'))

/-- C4: the claim as stated is false on the code: the lookup compares the
requested name against the *first line* of each entry name (the capture of the
greedy dot-star regexp), so a 200 response whose entry is named `a\nb` is
selected by the request for `a` although the two names are not equal. -/
theorem read_lookup_newline_cex :
    getSavedSearchesConfigByName "a" 200 [⟨"a\nb", "c"⟩] [] =
      Except.ok (some ⟨"a\nb", "c"⟩) ∧
    ("a\nb" : String) ≠ "a" := by decide

/-- C4 (amended): on a 2xx response the lookup selects the first entry whose
name's first line equals the requested name; when no entry name contains a
newline this is exact string equality — for every name string, including ones
with regex metacharacters, since the pattern is the fixed dot-star — and the
Read step fails with the not-found error exactly when no entry name equals the
requested name; any entry Read does return is an entry of the response whose
name exactly equals the requested name. -/
theorem read_lookup_exact_match (name : String) (statusCode : Nat)
    (entries : List SavedSearchesEntry) (messages : List String)
    (hs : statusCode = 200 ∨ statusCode = 201)
    (hnl : ∀ e ∈ entries, '\n' ∉ e.name.toList) :
    getSavedSearchesConfigByName name statusCode entries messages =
      Except.ok (entries.find? (fun e => e.name == name)) ∧
    (savedSearchesReadLookup name statusCode entries messages =
        Except.error (GoFailure.remoteErr ("Unable to find resource: " ++ name)) ↔
      ∀ e ∈ entries, e.name ≠ name) ∧
    (∀ e, savedSearchesReadLookup name statusCode entries messages = Except.ok e →
      e ∈ entries ∧ e.name = name) := by
  have h1 : getSavedSearchesConfigByName name statusCode entries messages =
      Except.ok (entries.find? (fun e => e.name == name)) := by
    unfold getSavedSearchesConfigByName
    rw [if_pos hs, find_eq_exact hnl]
  refine ⟨h1, ?_, ?_⟩
  · cases hf : entries.find? (fun e => e.name == name) with
    | none =>
      simp only [savedSearchesReadLookup, h1, hf, true_iff]
      intro e he hcon
      exact List.find?_eq_none.mp hf e he (by simp [hcon])
    | some e =>
      simp only [savedSearchesReadLookup, h1, hf]
      constructor
      · intro hcon; cases hcon
      · intro hall
        exact absurd (by simpa using List.find?_some hf)
          (hall e (List.mem_of_find?_eq_some hf))
  · intro e he
    rw [savedSearchesReadLookup, h1] at he
    cases hf : entries.find? (fun x => x.name == name) with
    | none => rw [hf] at he; cases he
    | some e0 =>
      rw [hf] at he
      cases he
      exact ⟨List.mem_of_find?_eq_some hf, by simpa using List.find?_some hf⟩

/-- C4 (amended), witnessed: with newline-free entry names the request `b`
selects exactly the entry named `b`, and a request matching no entry fails with
the not-found error. -/
theorem read_lookup_exact_match_witness :
    getSavedSearchesConfigByName "b" 200 [⟨"a", "x"⟩, ⟨"b", "y"⟩] [] =
      Except.ok (some ⟨"b", "y"⟩) ∧
    savedSearchesReadLookup "zzz" 200 [⟨"a", "x"⟩] [] =
      Except.error (GoFailure.remoteErr ("Unable to find resource: " ++ "zzz")) := by
  constructor
  · exact ((read_lookup_exact_match "b" 200 [⟨"a", "x"⟩, ⟨"b", "y"⟩] []
      (Or.inl rfl) (by decide)).1).trans (by decide)
  · exact (read_lookup_exact_match "zzz" 200 [⟨"a", "x"⟩] []
      (Or.inl rfl) (by decide)).2.1.mpr (by decide)

/-- C6: the claim as stated is false on the code: the enablement flag is a
substring test on the normalized actions string, so the single action
`mywebhook` — whose token set does not contain `webhook` — still sets the flag. -/
theorem webhook_flag_substring_cex :
    (getSavedSearchesConfigWebhookBits ⟨"mywebhook", none, "", ""⟩).actionWebhook = true ∧
    "webhook".toList ∉ sortStrings (cleanActionList "mywebhook") ∧
    "webhook".toList ∉ cleanActionList "mywebhook" := by decide

/-- C6 (amended): the flag sent in the payload is true iff `webhook` occurs as
a substring of the normalized actions string — so exact token membership does
imply the flag, but so does any other token containing `webhook` — and the flag
is computed from the actions string alone, independently of the priority
inputs. -/
theorem webhook_flag_substring (d : WebhookResourceData) :
    ((getSavedSearchesConfigWebhookBits d).actionWebhook = true ↔
      "webhook".toList <:+: (normalizeActionsString d.actions).toList) ∧
    ("webhook".toList ∈ cleanActionList d.actions →
      (getSavedSearchesConfigWebhookBits d).actionWebhook = true) ∧
    (∀ d' : WebhookResourceData, d.actions = d'.actions →
      (getSavedSearchesConfigWebhookBits d).actionWebhook =
        (getSavedSearchesConfigWebhookBits d').actionWebhook) := by
  refine ⟨?_, ?_, ?_⟩
  · simp only [getSavedSearchesConfigWebhookBits, goStringsContains]
    exact decide_eq_true_iff
  · intro hm
    simp only [getSavedSearchesConfigWebhookBits, goStringsContains,
      decide_eq_true_iff]
    rw [normalizeActionsString_eq]
    show "webhook".toList <:+:
      (joinComma (sortStrings (cleanActionList d.actions)))
    exact mem_infix_joinComma (((sortStrings_perm _).mem_iff).mpr hm)
  · intro d' hEq
    simp only [getSavedSearchesConfigWebhookBits, hEq]

/-- C6 (amended), witnessed: the token list of `email,webhook` contains
`webhook`, so the flag is set. -/
theorem webhook_flag_substring_witness :
    (getSavedSearchesConfigWebhookBits ⟨"email,webhook", none, "", ""⟩).actionWebhook
      = true :=
  (webhook_flag_substring ⟨"email,webhook", none, "", ""⟩).2.1 (by decide)

/-- C8: on Read, the Jira summary field is written to the stored view iff the
observed value differs from its sentinel, and likewise the Jira description
field; whenever either is written, it is written with the observed value. -/
theorem jira_sentinel_read_writes (c : JiraContentFields) :
    ((∃ v, ("action_jira_service_desk_param_jira_summary", v) ∈
        savedSearchesReadJiraWrites c) ↔ c.summary ≠ jiraSummaryDefault) ∧
    (∀ v, ("action_jira_service_desk_param_jira_summary", v) ∈
        savedSearchesReadJiraWrites c → v = c.summary) ∧
    ((∃ v, ("action_jira_service_desk_param_jira_description", v) ∈
        savedSearchesReadJiraWrites c) ↔ c.description ≠ jiraDescriptionDefault) ∧
    (∀ v, ("action_jira_service_desk_param_jira_description", v) ∈
        savedSearchesReadJiraWrites c → v = c.description) := by
  unfold savedSearchesReadJiraWrites
  by_cases h1 : c.summary = jiraSummaryDefault <;>
    by_cases h2 : c.description = jiraDescriptionDefault <;>
      simp [h1, h2, Prod.ext_iff]

/-- C8, witnessed: a content block whose summary equals the sentinel and whose
description is `desc` produces no summary write and a description write. -/
theorem jira_sentinel_read_writes_witness :
    (∃ v, ("action_jira_service_desk_param_jira_description", v) ∈
      savedSearchesReadJiraWrites ⟨"a", "p", "i", jiraSummaryDefault, "3", "desc", "cf"⟩) ∧
    ¬(∃ v, ("action_jira_service_desk_param_jira_summary", v) ∈
      savedSearchesReadJiraWrites ⟨"a", "p", "i", jiraSummaryDefault, "3", "desc", "cf"⟩) := by
  constructor
  · exact (jira_sentinel_read_writes
      ⟨"a", "p", "i", jiraSummaryDefault, "3", "desc", "cf"⟩).2.2.1.mpr (by decide)
  · intro hex
    exact (jira_sentinel_read_writes
      ⟨"a", "p", "i", jiraSummaryDefault, "3", "desc", "cf"⟩).1.mp hex rfl

